import Mathlib

/-!
Verification of the OpenCTI Terraform provider's reconciliation logic.

The provider (package `internal/provider`) manages OpenCTI entities (roles,
groups, users, marking definitions, case/task/status templates, vocabularies)
through Create/Read/Update/Delete hooks.  This development embeds the
per-resource reconciliation code as pure Lean functions.  Remote calls that can
fail (assign/unassign/create) are driven by an oracle `ok : Call → Bool`; a
failing call aborts the operation with that call as the diagnostic, mirroring
the Go code's `AddError` + early `return`.  Remote reads and listings are
passed in as arguments (they are the responses the code received); the
always-succeeding oracle `okAll` describes the success path.
-/

namespace OpenCTI

/-- Remote entity reference as returned by list and read calls: an opaque id
plus the human-readable field the provider matches on.  For roles, groups and
capabilities that field is `name`; for marking definitions the provider matches
on `definition`, which is stored here in the `name` field. -/
structure NamedRef where
  id : String
  name : String
deriving DecidableEq, Repr

/-- Remote side-effecting call issued by a resource operation: a relation
assignment (`AssignRole`, `AssignMarkingDefinition`, `AssignGroup`,
`AssignCapability`), a relation removal (`Unassign...`), or an entity creation
(`CreateGroup`, `CreateUser`, `CreateMarkingDefinition`, ...). -/
inductive Call where
  | assign (id : String)
  | unassign (id : String)
  | createEntity
deriving DecidableEq, Repr

/-- Oracle under which every remote call succeeds: the success path. -/
def okAll : Call → Bool := fun _ => true

/-- Removal phase of an association reconciliation, from
`groupResource.Update` ("Remove roles" / "Remove markings"),
`userResource.Update` ("Remove groups") and `roleResource.Update`
("Remove capabilities"): walk the current relation edges; an edge whose name is
not in the plan gets an unassign call (aborting on failure), an edge whose name
is in the plan is retained. Returns the retained names in edge order together
with the unassign calls issued. -/
def removeLoop (ok : Call → Bool) (plan : List String) :
    List NamedRef → Except Call (List String × List Call)
  | [] => .ok ([], [])
  | e :: es =>
    if e.name ∈ plan then
      match removeLoop ok plan es with
      | .ok (ret, calls) => .ok (e.name :: ret, calls)
      | .error c => .error c
    else if ok (.unassign e.id) then
      match removeLoop ok plan es with
      | .ok (ret, calls) => .ok (ret, .unassign e.id :: calls)
      | .error c => .error c
    else .error (.unassign e.id)

/-- Addition phase of an association reconciliation, from
`groupResource.Update` ("Add roles" / "Add markings") and
`userResource.Update` ("Add groups"): walk the planned names; a name not
already in the accumulated relation list is looked up in the full remote
listing by exact name, the first match is assigned (aborting on failure) and
its name appended; a name with no match in the listing is skipped silently. -/
def addLoop (ok : Call → Bool) (existing : List NamedRef) :
    List String → List String → Except Call (List String × List Call)
  | acc, [] => .ok (acc, [])
  | acc, d :: ds =>
    if d ∈ acc then addLoop ok existing acc ds
    else
      match existing.find? (fun e => e.name == d) with
      | none => addLoop ok existing acc ds
      | some e =>
        if ok (.assign e.id) then
          match addLoop ok existing (acc ++ [e.name]) ds with
          | .ok (res, calls) => .ok (res, .assign e.id :: calls)
          | .error c => .error c
        else .error (.assign e.id)

/-- Full association reconciliation for the listing-matched relation kinds
(group roles, group markings, user groups): removal phase, then addition
phase seeded with the retained names, then a lexicographic sort
(`sort.Strings`) of the resulting relation list.  Returns the sorted list and
the calls issued (unassigns before assigns, as in the Go code). -/
def reconcile (ok : Call → Bool) (current : List NamedRef) (desired : List String)
    (existing : List NamedRef) : Except Call (List String × List Call) :=
  match removeLoop ok desired current with
  | .error c => .error c
  | .ok (retained, uncalls) =>
    match addLoop ok existing retained desired with
    | .error c => .error c
    | .ok (res, acalls) => .ok (res.insertionSort (· ≤ ·), uncalls ++ acalls)

/-- Addition phase of `roleResource.Update` ("Add capabilities"): capabilities
are not matched against a listing inside this repository; their ids come from
the external `system.Capability{}.IDsByNames` call, modelled by the resolution
function `idOfName` (the Go code indexes the returned id slice by the position
of the name in the plan).  Every planned name not already in the accumulated
list is assigned and appended. -/
def roleAddLoop (ok : Call → Bool) (idOfName : String → String) :
    List String → List String → Except Call (List String × List Call)
  | acc, [] => .ok (acc, [])
  | acc, d :: ds =>
    if d ∈ acc then roleAddLoop ok idOfName acc ds
    else if ok (.assign (idOfName d)) then
      match roleAddLoop ok idOfName (acc ++ [d]) ds with
      | .ok (res, calls) => .ok (res, .assign (idOfName d) :: calls)
      | .error c => .error c
    else .error (.assign (idOfName d))

/-- Association reconciliation of `roleResource.Update`: removal phase over the
capability edges of the role read, then the capability addition phase, then the
lexicographic sort. -/
def roleReconcile (ok : Call → Bool) (current : List NamedRef) (desired : List String)
    (idOfName : String → String) : Except Call (List String × List Call) :=
  match removeLoop ok desired current with
  | .error c => .error c
  | .ok (retained, uncalls) =>
    match roleAddLoop ok idOfName retained desired with
    | .error c => .error c
    | .ok (res, acalls) => .ok (res.insertionSort (· ≤ ·), uncalls ++ acalls)

/-- Assignment loop of the Create operations (`groupResource.Create` role and
marking loops, `userResource.Create` group loop): for each planned name, scan
the full remote listing and assign the first entity with that exact name,
recording its name; a name with no match is skipped silently.  Unlike the
Update addition phase, Create does not test the accumulator first, so a
duplicated planned name is assigned (and recorded) twice. -/
def assignLoop (ok : Call → Bool) (existing : List NamedRef) :
    List String → Except Call (List String × List Call)
  | [] => .ok ([], [])
  | d :: ds =>
    match existing.find? (fun e => e.name == d) with
    | none => assignLoop ok existing ds
    | some e =>
      if ok (.assign e.id) then
        match assignLoop ok existing ds with
        | .ok (names, calls) => .ok (e.name :: names, .assign e.id :: calls)
        | .error c => .error c
      else .error (.assign e.id)

/-! ### Group resource (`group_resource.go`) -/

/-- State record of the group resource (`groupResourceModel`). -/
structure GroupState where
  id : String
  name : String
  description : String
  roles : List String
  allowedMarking : List String
  maxConfidenceLevel : Int
  autoNewMarking : Bool
  defaultAssignation : Bool
  lastUpdated : String
deriving DecidableEq, Repr

/-- Response of the remote `CreateGroup` call (fields selected by
`groupResource.Create`). -/
structure CreatedGroup where
  id : String
  name : String
  description : String
  maxConfidence : Int
  autoNewMarking : Bool
  defaultAssignation : Bool
deriving DecidableEq, Repr

/-- Response of the remote `ReadGroup` call: scalars plus the role edges and
the allowed markings (each modelled as a `NamedRef`; for markings the `name`
field holds the `definition`). -/
structure RemoteGroup where
  id : String
  name : String
  description : String
  rolesEdges : List NamedRef
  allowedMarking : List NamedRef
  maxConfidence : Int
  autoNewMarking : Bool
  defaultAssignation : Bool
deriving DecidableEq, Repr

/-- Embedding of `groupResource.Create`: create the group remotely (the
response `created` is an argument), assign the planned roles and markings that
match the respective listings, and write state with the created group's scalars
and the sorted lists of relations actually assigned.  `now` stands for
`time.Now().Format(time.RFC850)`. -/
def groupCreate (ok : Call → Bool) (plan : GroupState) (created : CreatedGroup)
    (existingRoles existingMarkings : List NamedRef) (now : String) :
    Except Call (GroupState × List Call) :=
  match assignLoop ok existingRoles plan.roles with
  | .error c => .error c
  | .ok (rolesAssigned, rcalls) =>
    match assignLoop ok existingMarkings plan.allowedMarking with
    | .error c => .error c
    | .ok (markingsAssigned, mcalls) =>
      .ok ({ id := created.id, name := created.name, description := created.description,
             roles := rolesAssigned.insertionSort (· ≤ ·),
             allowedMarking := markingsAssigned.insertionSort (· ≤ ·),
             maxConfidenceLevel := created.maxConfidence,
             autoNewMarking := created.autoNewMarking,
             defaultAssignation := created.defaultAssignation,
             lastUpdated := now }, Call.createEntity :: (rcalls ++ mcalls))

/-- Embedding of `groupResource.Read`: overwrite every field of the prior
state from the remote read, flattening the role edges and the allowed markings
into sorted name lists; only `last_updated` is carried over. -/
def groupRead (state : GroupState) (remote : RemoteGroup) : GroupState :=
  { id := remote.id, name := remote.name, description := remote.description,
    roles := (remote.rolesEdges.map (fun e => e.name)).insertionSort (· ≤ ·),
    allowedMarking := (remote.allowedMarking.map (fun e => e.name)).insertionSort (· ≤ ·),
    maxConfidenceLevel := remote.maxConfidence,
    autoNewMarking := remote.autoNewMarking,
    defaultAssignation := remote.defaultAssignation,
    lastUpdated := state.lastUpdated }

/-- Embedding of `groupResource.Update`: read the group (argument `remote`),
reconcile roles against the role listing and markings against the marking
listing, and write the plan back with the reconciled sorted lists and a fresh
timestamp.  The plan's `id` and scalar fields are written unchanged. -/
def groupUpdate (ok : Call → Bool) (plan : GroupState) (remote : RemoteGroup)
    (existingRoles existingMarkings : List NamedRef) (now : String) :
    Except Call (GroupState × List Call) :=
  match reconcile ok remote.rolesEdges plan.roles existingRoles with
  | .error c => .error c
  | .ok (roles, rcalls) =>
    match reconcile ok remote.allowedMarking plan.allowedMarking existingMarkings with
    | .error c => .error c
    | .ok (markings, mcalls) =>
      .ok ({ plan with roles := roles, allowedMarking := markings, lastUpdated := now },
           rcalls ++ mcalls)

/-! ### Role resource (`role_resource.go`) -/

/-- State record of the role resource (`roleResourceModel`). -/
structure RoleState where
  id : String
  name : String
  capabilities : List String
  lastUpdated : String
deriving DecidableEq, Repr

/-- Response of the remote `ReadRole` call. -/
structure RemoteRole where
  id : String
  name : String
  capabilities : List NamedRef
deriving DecidableEq, Repr

/-- Response of the remote `CreateRole` call (fields selected by
`roleResource.Create`: `id name`). -/
structure CreatedRole where
  id : String
  name : String
deriving DecidableEq, Repr

/-- Assignment loop of `roleResource.Create`: one `AssignCapability` call per
id returned by the external `IDsByNames` resolution, aborting on the first
failing call. -/
def roleAssignAll (ok : Call → Bool) : List String → Except Call (List Call)
  | [] => .ok []
  | i :: is =>
    if ok (.assign i) then
      match roleAssignAll ok is with
      | .ok calls => .ok (.assign i :: calls)
      | .error c => .error c
    else .error (.assign i)

/-- Embedding of `roleResource.Create`: create the role remotely (the
response `created` is an argument), resolve the planned capability names to
ids through the external `system.Capability{}.IDsByNames` call (modelled by
the function `idsByNames`, which returns whatever id list that call produced;
its own failure aborts before any assignment), and assign each returned id.
The `capabilitesAssigned` list the Go code writes to state is the full list
of planned capability names, recorded before resolution, so the state holds
the sorted planned names rather than a matched subset. -/
def roleCreate (ok : Call → Bool) (plan : RoleState) (created : CreatedRole)
    (idsByNames : List String → List String) (now : String) :
    Except Call (RoleState × List Call) :=
  match roleAssignAll ok (idsByNames plan.capabilities) with
  | .error c => .error c
  | .ok calls =>
    .ok ({ id := created.id, name := created.name,
           capabilities := plan.capabilities.insertionSort (· ≤ ·),
           lastUpdated := now }, Call.createEntity :: calls)

/-- Embedding of `roleResource.Read`: overwrite id and name from the remote
read and flatten the capability records into a sorted name list; only
`last_updated` is carried over. -/
def roleRead (state : RoleState) (remote : RemoteRole) : RoleState :=
  { id := remote.id, name := remote.name,
    capabilities := (remote.capabilities.map (fun e => e.name)).insertionSort (· ≤ ·),
    lastUpdated := state.lastUpdated }

/-- Embedding of `roleResource.Update`: read the role (argument `remote`),
reconcile its capabilities (ids resolved by the external `IDsByNames`, modelled
by `idOfName`), and write the plan back with the sorted capability list and a
fresh timestamp. -/
def roleUpdate (ok : Call → Bool) (plan : RoleState) (remote : RemoteRole)
    (idOfName : String → String) (now : String) :
    Except Call (RoleState × List Call) :=
  match roleReconcile ok remote.capabilities plan.capabilities idOfName with
  | .error c => .error c
  | .ok (caps, calls) =>
    .ok ({ plan with capabilities := caps, lastUpdated := now }, calls)

/-! ### User resource (`user_resource.go`) -/

/-- State record of the user resource (`userResourceModel`); the confidence
object is omitted, no claim mentions it. -/
structure UserState where
  id : String
  name : String
  userEmail : String
  apiToken : String
  groups : List String
  lastUpdated : String
deriving DecidableEq, Repr

/-- User record as returned by `ListUsers` / `CreateUser`. -/
structure RemoteUser where
  id : String
  name : String
  userEmail : String
  apiToken : String
deriving DecidableEq, Repr

/-- Embedding of `userResource.Create`: list the users; if one carries the
planned name adopt it (`createdUser = user`), otherwise issue `CreateUser`
(its response is the argument `freshUser`).  The existence check is
`createdUser.Name == ""` on a zero-valued `system.User{}`, so a listed user
whose name is empty does not count as found.  Then assign the planned groups
that match the group listing and write state from the adopted or created user
plus the sorted list of groups actually assigned. -/
def userCreate (ok : Call → Bool) (plan : UserState) (usersRaw : List RemoteUser)
    (freshUser : RemoteUser) (existingGroups : List NamedRef) (now : String) :
    Except Call (UserState × List Call) :=
  let found := ((usersRaw.find? (fun u => u.name == plan.name)).getD ⟨"", "", "", ""⟩)
  if found.name == "" && !(ok .createEntity) then .error .createEntity
  else
    let createdUser := if found.name == "" then freshUser else found
    let createCalls := if found.name == "" then [Call.createEntity] else []
    match assignLoop ok existingGroups plan.groups with
    | .error c => .error c
    | .ok (groupsAssigned, gcalls) =>
      .ok ({ id := createdUser.id, name := createdUser.name,
             userEmail := createdUser.userEmail, apiToken := createdUser.apiToken,
             groups := groupsAssigned.insertionSort (· ≤ ·), lastUpdated := now },
           createCalls ++ gcalls)

/-- Embedding of `userResource.Update`: read the user (its group edges are the
argument `remoteGroups`), reconcile the groups against the group listing, and
write the plan back with the sorted group list and a fresh timestamp. -/
def userUpdate (ok : Call → Bool) (plan : UserState) (remoteGroups : List NamedRef)
    (existingGroups : List NamedRef) (now : String) :
    Except Call (UserState × List Call) :=
  match reconcile ok remoteGroups plan.groups existingGroups with
  | .error c => .error c
  | .ok (groups, calls) =>
    .ok ({ plan with groups := groups, lastUpdated := now }, calls)

/-! ### Marking definition resource (`marking_definition_resource.go`) -/

/-- State record of the marking definition resource. -/
structure MarkingDefinitionState where
  id : String
  definitionType : String
  definition : String
  xOpenctiOrder : Int
  xOpenctiColor : String
  lastUpdated : String
deriving DecidableEq, Repr

/-- Response of the remote `CreateMarkingDefinition` call. -/
structure RemoteMarkingDefinition where
  id : String
  definitionType : String
  definition : String
  xOpenctiOrder : Int
  xOpenctiColor : String
deriving DecidableEq, Repr

/-- Embedding of `markingDefinitionResource.Update`: the Go code does not
update in place; it issues a second `CreateMarkingDefinition` call with the
plan's field values (its response is the argument `createdMarking`) and writes
every state field, `id` included, from that response. -/
def markingDefinitionUpdate (plan : MarkingDefinitionState)
    (createdMarking : RemoteMarkingDefinition) (now : String) :
    MarkingDefinitionState × List Call :=
  ({ id := createdMarking.id, definitionType := createdMarking.definitionType,
     definition := createdMarking.definition,
     xOpenctiOrder := createdMarking.xOpenctiOrder,
     xOpenctiColor := createdMarking.xOpenctiColor,
     lastUpdated := now }, [Call.createEntity])

/-! ### Task template and vocabulary resources -/

/-- State record of the task template resource. -/
structure TaskTemplateState where
  id : String
  name : String
  description : String
  lastUpdated : String
deriving DecidableEq, Repr

/-- Embedding of `taskTemplateResource.Update`: issues a second
`CreateTaskTemplate` call (the id of its response is `createdId`) and stores
that new id in state; name and description stay as planned. -/
def taskTemplateUpdate (plan : TaskTemplateState) (createdId : String) (now : String) :
    TaskTemplateState × List Call :=
  ({ plan with id := createdId, lastUpdated := now }, [Call.createEntity])

/-- State record of the vocabulary resource. -/
structure VocabularyState where
  id : String
  name : String
  description : String
  category : String
  lastUpdated : String
deriving DecidableEq, Repr

/-- Response of the remote `CreateVocabulary` call. -/
structure RemoteVocabulary where
  id : String
  name : String
  description : String
  category : String
deriving DecidableEq, Repr

/-- Embedding of `vocabularyResource.Update`: issues a second
`CreateVocabulary` call (its response is `createdVoc`) and writes every state
field, `id` included, from that response. -/
def vocabularyUpdate (plan : VocabularyState) (createdVoc : RemoteVocabulary)
    (now : String) : VocabularyState × List Call :=
  ({ id := createdVoc.id, name := createdVoc.name, description := createdVoc.description,
     category := createdVoc.category, lastUpdated := now }, [Call.createEntity])

/-! ### Status template and case template resources -/

/-- One workflow entry of the status template resource (`workflowModel`). -/
structure Workflow where
  entity : String
  order : Int
deriving DecidableEq, Repr

/-- State record of the status template resource. -/
structure StatusTemplateState where
  id : String
  name : String
  color : String
  workflows : List Workflow
  lastUpdated : String
deriving DecidableEq, Repr

/-- Response of the remote `ReadStatusTemplate` call: scalars plus the number
of usages; the read does not return the workflow entries themselves. -/
structure RemoteStatusTemplate where
  id : String
  name : String
  color : String
  usages : Nat
deriving DecidableEq, Repr

/-- Embedding of `statusTemplateResource.Read`: scalars are overwritten from
the remote record; the workflows list is reset to empty when its length
differs from the remote usage count and otherwise kept verbatim from the
previously recorded local state (the code comments that retrieving the actual
workflows is not simple and compares only the number of usages). -/
def statusTemplateRead (state : StatusTemplateState) (remote : RemoteStatusTemplate) :
    StatusTemplateState :=
  { id := remote.id, name := remote.name, color := remote.color,
    workflows := if state.workflows.length ≠ remote.usages then [] else state.workflows,
    lastUpdated := state.lastUpdated }

/-- Embedding of `statusTemplateResource.Update`: the Go body is empty, so no
remote call is issued and the response state stays at its default, the planned
state supplied by the framework. -/
def statusTemplateUpdate (plan : StatusTemplateState) : StatusTemplateState × List Call :=
  (plan, [])

/-- State record of the case template resource. -/
structure CaseTemplateState where
  id : String
  name : String
  description : String
  tasks : List String
  lastUpdated : String
deriving DecidableEq, Repr

/-- Embedding of `caseTemplateResource.Update`: the Go body is empty, so no
remote call is issued and the response state stays at its default, the planned
state supplied by the framework. -/
def caseTemplateUpdate (plan : CaseTemplateState) : CaseTemplateState × List Call :=
  (plan, [])

/-- Declared shape of one schema attribute: whether it is required (user
configured), computed, and whether it carries a `RequiresReplace` plan
modifier. -/
structure AttrSchema where
  attr : String
  required : Bool
  computed : Bool
  requiresReplace : Bool
deriving DecidableEq, Repr

/-- Schema of the case template resource: `name`, `description` and `tasks`
all carry `RequiresReplace`. -/
def caseTemplateSchema : List AttrSchema :=
  [⟨"last_updated", false, true, false⟩, ⟨"id", false, true, false⟩,
   ⟨"name", true, false, true⟩, ⟨"description", true, false, true⟩,
   ⟨"tasks", true, false, true⟩]

/-- Schema of the status template resource: only `workflows` carries
`RequiresReplace`; `name` and `color` are required attributes without it. -/
def statusTemplateSchema : List AttrSchema :=
  [⟨"last_updated", false, true, false⟩, ⟨"id", false, true, false⟩,
   ⟨"name", true, false, false⟩, ⟨"color", true, false, false⟩,
   ⟨"workflows", false, false, true⟩]

/-! ### Provider bootstrap (`provider.go`) -/

/-- Terraform string attribute value as the framework hands it to `Configure`:
unknown at plan time, null (not set), or a known string. -/
inductive TFString where
  | unknown
  | null
  | value (s : String)
deriving DecidableEq, Repr

/-- Test for an unknown value (`types.String.IsUnknown`). -/
def TFString.isUnknown : TFString → Bool
  | .unknown => true
  | _ => false

/-- Test for a null value (`types.String.IsNull`). -/
def TFString.isNull : TFString → Bool
  | .null => true
  | _ => false

/-- Underlying string of a value (`types.String.ValueString`), empty for
unknown or null. -/
def TFString.valueString : TFString → String
  | .value s => s
  | _ => ""

/-- Embedding of `openctiProvider.Configure`: reject unknown URL or token;
resolve each setting from explicit configuration when non-null, else from the
same-named environment variable; reject empty resolved values; otherwise hand
the resolved pair to the client constructor.  `.error` carries the diagnostic
titles; `.ok (url, token)` means configuration validation passed and the
(external) `gocti.NewOpenCTIAPIClient` is invoked with those values. -/
def providerConfigure (cfgUrl cfgToken : TFString) (envUrl envToken : String) :
    Except (List String) (String × String) :=
  let unknownDiags :=
    (if cfgUrl.isUnknown then ["Unknown opencti URL"] else []) ++
      (if cfgToken.isUnknown then ["Unknown opencti token"] else [])
  if unknownDiags ≠ [] then .error unknownDiags
  else
    let url := if !cfgUrl.isNull then cfgUrl.valueString else envUrl
    let token := if !cfgToken.isNull then cfgToken.valueString else envToken
    let missingDiags :=
      (if url = "" then ["Missing opencti URL"] else []) ++
        (if token = "" then ["Missing opencti token"] else [])
    if missingDiags ≠ [] then .error missingDiags
    else .ok (url, token)

/-! ### Helper lemmas about the reconciliation loops -/

/-- On the success path the removal phase retains exactly the current edges
whose name is planned and unassigns exactly the others. -/
theorem removeLoop_okAll_eq (plan : List String) (current : List NamedRef) :
    removeLoop okAll plan current =
      .ok ((current.filter (fun e => e.name ∈ plan)).map (fun e => e.name),
           (current.filter (fun e => e.name ∉ plan)).map (fun e => Call.unassign e.id)) := by
  induction current with
  | nil => rfl
  | cons e es ih =>
    by_cases h : e.name ∈ plan <;>
      simp [removeLoop, okAll, ih, h, List.filter_cons]

/-- On the success path the addition phase always succeeds. -/
theorem addLoop_okAll_isOk (existing : List NamedRef) :
    ∀ (desired acc : List String), ∃ res calls,
      addLoop okAll existing acc desired = .ok (res, calls) := by
  intro desired
  induction desired with
  | nil => intro acc; exact ⟨acc, [], rfl⟩
  | cons d ds ih =>
    intro acc
    by_cases h : d ∈ acc
    · simpa [addLoop, h] using ih acc
    · cases hf : existing.find? (fun e => e.name == d) with
      | none => simpa [addLoop, h, hf] using ih acc
      | some e =>
        obtain ⟨res, calls, hrec⟩ := ih (acc ++ [e.name])
        exact ⟨res, .assign e.id :: calls, by simp [addLoop, h, hf, okAll, hrec]⟩

/-- Membership in the output of the addition phase: a name is in the result
iff it was already accumulated or it is a planned name that resolves against
the listing. -/
theorem addLoop_okAll_mem (existing : List NamedRef) :
    ∀ (desired acc res : List String) (calls : List Call),
      addLoop okAll existing acc desired = .ok (res, calls) →
      ∀ x, x ∈ res ↔ x ∈ acc ∨ (x ∈ desired ∧ ∃ e ∈ existing, e.name = x) := by
  intro desired
  induction desired with
  | nil =>
    intro acc res calls h x
    simp only [addLoop] at h
    obtain ⟨h1, h2⟩ := Prod.mk.injEq .. ▸ Except.ok.inj h
    simp [← h1]
  | cons d ds ih =>
    intro acc res calls h x
    by_cases hd : d ∈ acc
    · rw [addLoop, if_pos hd] at h
      rw [ih acc res calls h x]
      constructor
      · rintro (hx | ⟨hx1, hx2⟩)
        · exact Or.inl hx
        · exact Or.inr ⟨List.mem_cons_of_mem _ hx1, hx2⟩
      · rintro (hx | ⟨hx1, hx2⟩)
        · exact Or.inl hx
        · rcases List.mem_cons.mp hx1 with rfl | hx1
          · exact Or.inl hd
          · exact Or.inr ⟨hx1, hx2⟩
    · rw [addLoop, if_neg hd] at h
      cases hf : existing.find? (fun e => e.name == d) with
      | none =>
        rw [hf] at h
        have hnores : ¬ ∃ e ∈ existing, e.name = d := by
          rintro ⟨e, he, rfl⟩
          exact absurd (List.find?_eq_none.mp hf e he) (by simp)
        rw [ih acc res calls h x]
        constructor
        · rintro (hx | ⟨hx1, hx2⟩)
          · exact Or.inl hx
          · exact Or.inr ⟨List.mem_cons_of_mem _ hx1, hx2⟩
        · rintro (hx | ⟨hx1, hx2⟩)
          · exact Or.inl hx
          · rcases List.mem_cons.mp hx1 with rfl | hx1
            · exact absurd hx2 hnores
            · exact Or.inr ⟨hx1, hx2⟩
      | some e =>
        rw [hf] at h
        have hname : e.name = d := by simpa using List.find?_some hf
        have hmem : e ∈ existing := List.mem_of_find?_eq_some hf
        simp only [okAll, if_true] at h
        cases hrec : addLoop okAll existing (acc ++ [e.name]) ds with
        | error c => rw [hrec] at h; exact absurd h (by simp)
        | ok p =>
          rw [hrec] at h
          obtain ⟨h1, h2⟩ := Prod.mk.injEq .. ▸ Except.ok.inj h
          subst h1
          rw [ih (acc ++ [e.name]) p.1 p.2 (by rw [hrec]) x]
          simp only [List.mem_append, List.mem_singleton, hname]
          constructor
          · rintro ((hx | rfl) | ⟨hx1, hx2⟩)
            · exact Or.inl hx
            · exact Or.inr ⟨List.mem_cons_self _ _, e, hmem, hname⟩
            · exact Or.inr ⟨List.mem_cons_of_mem _ hx1, hx2⟩
          · rintro (hx | ⟨hx1, hx2⟩)
            · exact Or.inl (Or.inl hx)
            · rcases List.mem_cons.mp hx1 with rfl | hx1
              · exact Or.inl (Or.inr rfl)
              · exact Or.inr ⟨hx1, hx2⟩

/-- The addition phase issues no call and returns the accumulator unchanged
when every planned name is already accumulated or fails to resolve. -/
theorem addLoop_okAll_noNew (existing : List NamedRef) :
    ∀ (desired acc : List String),
      (∀ d ∈ desired, d ∈ acc ∨ ∀ e ∈ existing, e.name ≠ d) →
      addLoop okAll existing acc desired = .ok (acc, []) := by
  intro desired
  induction desired with
  | nil => intro acc _; rfl
  | cons d ds ih =>
    intro acc hall
    rcases hall d (List.mem_cons_self _ _) with hd | hd
    · rw [addLoop, if_pos hd]
      exact ih acc fun x hx => hall x (List.mem_cons_of_mem _ hx)
    · by_cases hacc : d ∈ acc
      · rw [addLoop, if_pos hacc]
        exact ih acc fun x hx => hall x (List.mem_cons_of_mem _ hx)
      · have hf : existing.find? (fun e => e.name == d) = none :=
          List.find?_eq_none.mpr fun e he => by simpa using hd e he
        rw [addLoop, if_neg hacc, hf]
        exact ih acc fun x hx => hall x (List.mem_cons_of_mem _ hx)

/-- On the success path the capability addition phase always succeeds. -/
theorem roleAddLoop_okAll_isOk (idOfName : String → String) :
    ∀ (desired acc : List String), ∃ res calls,
      roleAddLoop okAll idOfName acc desired = .ok (res, calls) := by
  intro desired
  induction desired with
  | nil => intro acc; exact ⟨acc, [], rfl⟩
  | cons d ds ih =>
    intro acc
    by_cases h : d ∈ acc
    · simpa [roleAddLoop, h] using ih acc
    · obtain ⟨res, calls, hrec⟩ := ih (acc ++ [d])
      exact ⟨res, .assign (idOfName d) :: calls, by simp [roleAddLoop, h, okAll, hrec]⟩

/-- Membership in the output of the capability addition phase: a name is in
the result iff it was accumulated or planned (every planned capability is
assigned, there is no listing-resolution filter in the repository code). -/
theorem roleAddLoop_okAll_mem (idOfName : String → String) :
    ∀ (desired acc res : List String) (calls : List Call),
      roleAddLoop okAll idOfName acc desired = .ok (res, calls) →
      ∀ x, x ∈ res ↔ x ∈ acc ∨ x ∈ desired := by
  intro desired
  induction desired with
  | nil =>
    intro acc res calls h x
    simp only [roleAddLoop] at h
    obtain ⟨h1, h2⟩ := Prod.mk.injEq .. ▸ Except.ok.inj h
    simp [← h1]
  | cons d ds ih =>
    intro acc res calls h x
    by_cases hd : d ∈ acc
    · rw [roleAddLoop, if_pos hd] at h
      rw [ih acc res calls h x]
      constructor
      · rintro (hx | hx)
        · exact Or.inl hx
        · exact Or.inr (List.mem_cons_of_mem _ hx)
      · rintro (hx | hx)
        · exact Or.inl hx
        · rcases List.mem_cons.mp hx with rfl | hx
          · exact Or.inl hd
          · exact Or.inr hx
    · rw [roleAddLoop, if_neg hd] at h
      simp only [okAll, if_true] at h
      cases hrec : roleAddLoop okAll idOfName (acc ++ [d]) ds with
      | error c => rw [hrec] at h; exact absurd h (by simp)
      | ok p =>
        rw [hrec] at h
        obtain ⟨h1, h2⟩ := Prod.mk.injEq .. ▸ Except.ok.inj h
        subst h1
        rw [ih (acc ++ [d]) p.1 p.2 (by rw [hrec]) x]
        simp only [List.mem_append, List.mem_singleton]
        constructor
        · rintro ((hx | rfl) | hx)
          · exact Or.inl hx
          · exact Or.inr (List.mem_cons_self _ _)
          · exact Or.inr (List.mem_cons_of_mem _ hx)
        · rintro (hx | hx)
          · exact Or.inl (Or.inl hx)
          · rcases List.mem_cons.mp hx with rfl | hx
            · exact Or.inl (Or.inr rfl)
            · exact Or.inr hx

/-- The capability addition phase issues no call when every planned name is
already accumulated. -/
theorem roleAddLoop_okAll_noNew (idOfName : String → String) :
    ∀ (desired acc : List String),
      (∀ d ∈ desired, d ∈ acc) →
      roleAddLoop okAll idOfName acc desired = .ok (acc, []) := by
  intro desired
  induction desired with
  | nil => intro acc _; rfl
  | cons d ds ih =>
    intro acc hall
    rw [roleAddLoop, if_pos (hall d (List.mem_cons_self _ _))]
    exact ih acc fun x hx => hall x (List.mem_cons_of_mem _ hx)

/-- On the success path the Create assignment loop always succeeds. -/
theorem assignLoop_okAll_isOk (existing : List NamedRef) :
    ∀ desired : List String, ∃ names calls,
      assignLoop okAll existing desired = .ok (names, calls) := by
  intro desired
  induction desired with
  | nil => exact ⟨[], [], rfl⟩
  | cons d ds ih =>
    obtain ⟨names, calls, hrec⟩ := ih
    cases hf : existing.find? (fun e => e.name == d) with
    | none => exact ⟨names, calls, by simp [assignLoop, hf, hrec]⟩
    | some e =>
      exact ⟨e.name :: names, .assign e.id :: calls, by simp [assignLoop, hf, okAll, hrec]⟩

/-- Every call issued by the Create assignment loop is an assign call; in
particular it never issues an entity creation call. -/
theorem assignLoop_calls_assign (ok : Call → Bool) (existing : List NamedRef) :
    ∀ (desired names : List String) (calls : List Call),
      assignLoop ok existing desired = .ok (names, calls) →
      ∀ c ∈ calls, ∃ i, c = Call.assign i := by
  intro desired
  induction desired with
  | nil =>
    intro names calls h c hc
    simp only [assignLoop] at h
    obtain ⟨h1, h2⟩ := Prod.mk.injEq .. ▸ Except.ok.inj h
    rw [← h2] at hc
    exact absurd hc (List.not_mem_nil c)
  | cons d ds ih =>
    intro names calls h c hc
    cases hf : existing.find? (fun e => e.name == d) with
    | none =>
      rw [assignLoop, hf] at h
      exact ih names calls h c hc
    | some e =>
      rw [assignLoop, hf] at h
      dsimp only at h
      by_cases hok : ok (.assign e.id)
      · rw [if_pos hok] at h
        cases hrec : assignLoop ok existing ds with
        | error c2 => rw [hrec] at h; exact absurd h (by simp)
        | ok p =>
          rw [hrec] at h
          obtain ⟨h1, h2⟩ := Prod.mk.injEq .. ▸ Except.ok.inj h
          rw [← h2] at hc
          rcases List.mem_cons.mp hc with rfl | hc
          · exact ⟨e.id, rfl⟩
          · exact ih p.1 p.2 (by rw [hrec]) c hc
      · rw [if_neg hok] at h
        exact absurd h (by simp)

/-- On the success path the full reconciliation always succeeds. -/
theorem reconcile_okAll_isOk (current existing : List NamedRef) (desired : List String) :
    ∃ res calls, reconcile okAll current desired existing = .ok (res, calls) := by
  obtain ⟨res, calls, hadd⟩ :=
    addLoop_okAll_isOk existing desired
      ((current.filter (fun e => e.name ∈ desired)).map (fun e => e.name))
  exact ⟨res.insertionSort (· ≤ ·), _, by
    rw [reconcile, removeLoop_okAll_eq]
    dsimp only
    rw [hadd]⟩

/-- Membership in the reconciled relation list: a name survives iff it is a
current name that is still desired, or a desired name that resolves against
the listing. -/
theorem reconcile_okAll_mem (current existing : List NamedRef) (desired res : List String)
    (calls : List Call)
    (h : reconcile okAll current desired existing = .ok (res, calls)) :
    ∀ x, x ∈ res ↔
      (x ∈ current.map (fun e => e.name) ∧ x ∈ desired) ∨
        (x ∈ desired ∧ ∃ e ∈ existing, e.name = x) := by
  intro x
  rw [reconcile, removeLoop_okAll_eq] at h
  dsimp only at h
  cases hadd : addLoop okAll existing
      ((current.filter (fun e => e.name ∈ desired)).map (fun e => e.name)) desired with
  | error c => rw [hadd] at h; exact absurd h (by simp)
  | ok p =>
    rw [hadd] at h
    obtain ⟨h1, h2⟩ := Prod.mk.injEq .. ▸ Except.ok.inj h
    have hmem := addLoop_okAll_mem existing desired _ p.1 p.2 (by rw [hadd]) x
    rw [← h1, List.mem_insertionSort, hmem]
    have hret : x ∈ (current.filter (fun e => e.name ∈ desired)).map (fun e => e.name) ↔
        x ∈ current.map (fun e => e.name) ∧ x ∈ desired := by
      simp only [List.mem_map, List.mem_filter, decide_eq_true_eq]
      constructor
      · rintro ⟨e, ⟨he, hed⟩, rfl⟩
        exact ⟨⟨e, he, rfl⟩, hed⟩
      · rintro ⟨⟨e, he, rfl⟩, hed⟩
        exact ⟨e, ⟨he, hed⟩, rfl⟩
    rw [hret]

/-- The reconciled relation list is sorted lexicographically. -/
theorem reconcile_okAll_sorted (current existing : List NamedRef) (desired res : List String)
    (calls : List Call)
    (h : reconcile okAll current desired existing = .ok (res, calls)) :
    res.Sorted (· ≤ ·) := by
  rw [reconcile, removeLoop_okAll_eq] at h
  dsimp only at h
  cases hadd : addLoop okAll existing
      ((current.filter (fun e => e.name ∈ desired)).map (fun e => e.name)) desired with
  | error c => rw [hadd] at h; exact absurd h (by simp)
  | ok p =>
    rw [hadd] at h
    obtain ⟨h1, h2⟩ := Prod.mk.injEq .. ▸ Except.ok.inj h
    rw [← h1]
    exact List.sorted_insertionSort _ _

/-- On the success path the capability reconciliation always succeeds. -/
theorem roleReconcile_okAll_isOk (current : List NamedRef) (desired : List String)
    (idOfName : String → String) :
    ∃ res calls, roleReconcile okAll current desired idOfName = .ok (res, calls) := by
  obtain ⟨res, calls, hadd⟩ :=
    roleAddLoop_okAll_isOk idOfName desired
      ((current.filter (fun e => e.name ∈ desired)).map (fun e => e.name))
  exact ⟨res.insertionSort (· ≤ ·), _, by
    rw [roleReconcile, removeLoop_okAll_eq]
    dsimp only
    rw [hadd]⟩

/-- Membership in the reconciled capability list: on a successful run every
desired capability is assigned, so the result set is exactly the desired
set. -/
theorem roleReconcile_okAll_mem (current : List NamedRef) (desired res : List String)
    (idOfName : String → String) (calls : List Call)
    (h : roleReconcile okAll current desired idOfName = .ok (res, calls)) :
    ∀ x, x ∈ res ↔
      (x ∈ current.map (fun e => e.name) ∧ x ∈ desired) ∨ x ∈ desired := by
  intro x
  rw [roleReconcile, removeLoop_okAll_eq] at h
  dsimp only at h
  cases hadd : roleAddLoop okAll idOfName
      ((current.filter (fun e => e.name ∈ desired)).map (fun e => e.name)) desired with
  | error c => rw [hadd] at h; exact absurd h (by simp)
  | ok p =>
    rw [hadd] at h
    obtain ⟨h1, h2⟩ := Prod.mk.injEq .. ▸ Except.ok.inj h
    have hmem := roleAddLoop_okAll_mem idOfName desired _ p.1 p.2 (by rw [hadd]) x
    rw [← h1, List.mem_insertionSort, hmem]
    have hret : x ∈ (current.filter (fun e => e.name ∈ desired)).map (fun e => e.name) ↔
        x ∈ current.map (fun e => e.name) ∧ x ∈ desired := by
      simp only [List.mem_map, List.mem_filter, decide_eq_true_eq]
      constructor
      · rintro ⟨e, ⟨he, hed⟩, rfl⟩
        exact ⟨⟨e, he, rfl⟩, hed⟩
      · rintro ⟨⟨e, he, rfl⟩, hed⟩
        exact ⟨e, ⟨he, hed⟩, rfl⟩
    rw [hret]

/-- The reconciled capability list is sorted lexicographically. -/
theorem roleReconcile_okAll_sorted (current : List NamedRef) (desired res : List String)
    (idOfName : String → String) (calls : List Call)
    (h : roleReconcile okAll current desired idOfName = .ok (res, calls)) :
    res.Sorted (· ≤ ·) := by
  rw [roleReconcile, removeLoop_okAll_eq] at h
  dsimp only at h
  cases hadd : roleAddLoop okAll idOfName
      ((current.filter (fun e => e.name ∈ desired)).map (fun e => e.name)) desired with
  | error c => rw [hadd] at h; exact absurd h (by simp)
  | ok p =>
    rw [hadd] at h
    obtain ⟨h1, h2⟩ := Prod.mk.injEq .. ▸ Except.ok.inj h
    rw [← h1]
    exact List.sorted_insertionSort _ _

/-- When every current edge is still desired and every desired name is either
current or unresolvable, the reconciliation issues no call at all and returns
the sorted current names. -/
theorem reconcile_okAll_noop (current existing : List NamedRef) (desired : List String)
    (h1 : ∀ e ∈ current, e.name ∈ desired)
    (h2 : ∀ d ∈ desired, d ∈ current.map (fun e => e.name) ∨ ∀ e ∈ existing, e.name ≠ d) :
    reconcile okAll current desired existing =
      .ok ((current.map (fun e => e.name)).insertionSort (· ≤ ·), []) := by
  have hf1 : current.filter (fun e => e.name ∈ desired) = current :=
    List.filter_eq_self.mpr fun e he => by simpa using h1 e he
  have hf2 : current.filter (fun e => e.name ∉ desired) = [] :=
    List.filter_eq_nil_iff.mpr fun e he => by simpa using h1 e he
  rw [reconcile, removeLoop_okAll_eq, hf1, hf2]
  dsimp only
  rw [addLoop_okAll_noNew existing desired _ h2]
  rfl

/-- Role variant of `reconcile_okAll_noop`: when every current capability edge
is desired and every desired name is current, no call is issued. -/
theorem roleReconcile_okAll_noop (current : List NamedRef) (desired : List String)
    (idOfName : String → String)
    (h1 : ∀ e ∈ current, e.name ∈ desired)
    (h2 : ∀ d ∈ desired, d ∈ current.map (fun e => e.name)) :
    roleReconcile okAll current desired idOfName =
      .ok ((current.map (fun e => e.name)).insertionSort (· ≤ ·), []) := by
  have hf1 : current.filter (fun e => e.name ∈ desired) = current :=
    List.filter_eq_self.mpr fun e he => by simpa using h1 e he
  have hf2 : current.filter (fun e => e.name ∉ desired) = [] :=
    List.filter_eq_nil_iff.mpr fun e he => by simpa using h1 e he
  rw [roleReconcile, removeLoop_okAll_eq, hf1, hf2]
  dsimp only
  rw [roleAddLoop_okAll_noNew idOfName desired _ h2]
  rfl

/-- Inserting a name that matches neither the current edges nor the desired
plan changes nothing in the removal phase, for any call oracle. -/
theorem removeLoop_unmatched (ok : Call → Bool) (d : String) (p1 p2 : List String) :
    ∀ current : List NamedRef, (∀ e ∈ current, e.name ≠ d) →
      removeLoop ok (p1 ++ d :: p2) current = removeLoop ok (p1 ++ p2) current := by
  intro current
  induction current with
  | nil => intro _; rfl
  | cons e es ih =>
    intro hall
    have hne : e.name ≠ d := hall e (List.mem_cons_self _ _)
    have hiff : (e.name ∈ p1 ++ d :: p2) ↔ (e.name ∈ p1 ++ p2) := by
      simp [List.mem_append, List.mem_cons, hne]
    rw [removeLoop, removeLoop, ih fun x hx => hall x (List.mem_cons_of_mem _ hx)]
    by_cases hm : e.name ∈ p1 ++ p2
    · rw [if_pos (hiff.mpr hm), if_pos hm]
    · rw [if_neg (fun hc => hm (hiff.mp hc)), if_neg hm]

/-- Inserting a desired name that resolves against nothing in the listing
changes nothing in the addition phase, for any call oracle. -/
theorem addLoop_unmatched (ok : Call → Bool) (existing : List NamedRef) (d : String)
    (hex : ∀ e ∈ existing, e.name ≠ d) (p2 : List String) :
    ∀ (p1 acc : List String),
      addLoop ok existing acc (p1 ++ d :: p2) = addLoop ok existing acc (p1 ++ p2) := by
  intro p1
  induction p1 with
  | nil =>
    intro acc
    by_cases hd : d ∈ acc
    · rw [List.nil_append, addLoop, if_pos hd, List.nil_append]
    · have hf : existing.find? (fun e => e.name == d) = none :=
        List.find?_eq_none.mpr fun e he => by simpa using hex e he
      rw [List.nil_append, addLoop, if_neg hd, hf, List.nil_append]
  | cons a p1 ih =>
    intro acc
    rw [List.cons_append, List.cons_append, addLoop, addLoop]
    by_cases ha : a ∈ acc
    · rw [if_pos ha, if_pos ha]
      exact ih acc
    · rw [if_neg ha, if_neg ha]
      cases hf : existing.find? (fun e => e.name == a) with
      | none =>
        exact ih acc
      | some e =>
        dsimp only
        by_cases hok : ok (.assign e.id)
        · rw [if_pos hok, if_pos hok, ih (acc ++ [e.name])]
        · rw [if_neg hok, if_neg hok]

/-! ### Claim theorems -/

/-- C3: for every association reconciliation with current set `C` and desired
set `D`, where `removed` is `C \ D` and `added` is the subset of `D \ C` that
resolves against the remote listing, the relation list returned in state
equals `(C \ removed) ∪ added` and is sorted lexicographically.  The first
conjunct covers the listing-matched reconciliations (group roles, group
markings, user groups); the second covers role capabilities, whose id
resolution is delegated to the external `IDsByNames` call, so on a successful
run every desired capability resolves and `added` is all of `D \ C`. -/
theorem c3_reconcile_result_is_diff_union_sorted :
    (∀ (current existing : List NamedRef) (desired res : List String) (calls : List Call),
      reconcile okAll current desired existing = .ok (res, calls) →
      (∀ x, x ∈ res ↔
        (x ∈ current.map (fun e => e.name) ∧
          ¬(x ∈ current.map (fun e => e.name) ∧ x ∉ desired)) ∨
        (x ∈ desired ∧ x ∉ current.map (fun e => e.name) ∧ ∃ e ∈ existing, e.name = x)) ∧
      res.Sorted (· ≤ ·))
  ∧ (∀ (current : List NamedRef) (idOfName : String → String) (desired res : List String)
        (calls : List Call),
      roleReconcile okAll current desired idOfName = .ok (res, calls) →
      (∀ x, x ∈ res ↔
        (x ∈ current.map (fun e => e.name) ∧
          ¬(x ∈ current.map (fun e => e.name) ∧ x ∉ desired)) ∨
        (x ∈ desired ∧ x ∉ current.map (fun e => e.name))) ∧
      res.Sorted (· ≤ ·)) := by
  constructor
  · intro current existing desired res calls h
    refine ⟨fun x => ?_, reconcile_okAll_sorted current existing desired res calls h⟩
    rw [reconcile_okAll_mem current existing desired res calls h x]
    tauto
  · intro current idOfName desired res calls h
    refine ⟨fun x => ?_, roleReconcile_okAll_sorted current desired res idOfName calls h⟩
    rw [roleReconcile_okAll_mem current desired res idOfName calls h x]
    tauto

/-- C3 witness: the reconciliation of current `{KNOWLEDGE}` against desired
`{KNOWLEDGE}` succeeds and its result is sorted. -/
theorem c3_reconcile_result_is_diff_union_sorted_witness :
    (["KNOWLEDGE"] : List String).Sorted (· ≤ ·) :=
  (c3_reconcile_result_is_diff_union_sorted.1 [⟨"1", "KNOWLEDGE"⟩] []
    ["KNOWLEDGE"] ["KNOWLEDGE"] [] rfl).2

/-- C4: a desired relation name that matches no entity in the full remote
listing is dropped from the resulting relation list and raises no error
diagnostic: for any call oracle the whole operation behaves exactly as if the
name were absent from the plan, and on the success path the name is not in the
result. -/
theorem c4_unmatched_desired_name_dropped_silently
    (ok : Call → Bool) (current existing : List NamedRef) (d : String)
    (p1 p2 : List String)
    (hex : ∀ e ∈ existing, e.name ≠ d) (hcur : ∀ e ∈ current, e.name ≠ d) :
    reconcile ok current (p1 ++ d :: p2) existing =
      reconcile ok current (p1 ++ p2) existing ∧
    ∀ res calls, reconcile okAll current (p1 ++ d :: p2) existing = .ok (res, calls) →
      d ∉ res := by
  constructor
  · rw [reconcile, reconcile, removeLoop_unmatched ok d p1 p2 current hcur]
    cases hrem : removeLoop ok (p1 ++ p2) current with
    | error c => rfl
    | ok p =>
      obtain ⟨ret, unc⟩ := p
      dsimp only
      rw [addLoop_unmatched ok existing d hex p2 p1 ret]
  · intro res calls h hd
    rcases (reconcile_okAll_mem current existing (p1 ++ d :: p2) res calls h d).mp hd with
      ⟨hc, _⟩ | ⟨_, e, he, hname⟩
    · obtain ⟨e, he, hname⟩ := List.mem_map.mp hc
      exact hcur e he hname
    · exact hex e he hname

/-- C4 witness: with current and listing both `{a}`, planning
`[a, ghost]` behaves exactly like planning `[a]` when `ghost` resolves
nowhere. -/
theorem c4_unmatched_desired_name_dropped_silently_witness :
    reconcile okAll [⟨"i1", "a"⟩] (["a"] ++ "ghost" :: []) [⟨"i1", "a"⟩] =
      reconcile okAll [⟨"i1", "a"⟩] (["a"] ++ []) [⟨"i1", "a"⟩] :=
  (c4_unmatched_desired_name_dropped_silently okAll [⟨"i1", "a"⟩] [⟨"i1", "a"⟩]
    "ghost" ["a"] [] (by decide) (by decide)).1

/-- C5: invoking Update twice in succession with the same desired relation
set, against a remote whose association set after the first invocation is
exactly the relation list the first invocation returned (and an otherwise
unchanged remote), issues zero assign and zero unassign calls on the second
invocation.  First conjunct: listing-matched reconciliations; second conjunct:
role capabilities. -/
theorem c5_second_update_issues_no_calls :
    (∀ (current current2 existing : List NamedRef) (desired res : List String)
        (calls : List Call),
      reconcile okAll current desired existing = .ok (res, calls) →
      (∀ x, x ∈ current2.map (fun e => e.name) ↔ x ∈ res) →
      reconcile okAll current2 desired existing =
        .ok ((current2.map (fun e => e.name)).insertionSort (· ≤ ·), []))
  ∧ (∀ (current current2 : List NamedRef) (idOfName idOfName2 : String → String)
        (desired res : List String) (calls : List Call),
      roleReconcile okAll current desired idOfName = .ok (res, calls) →
      (∀ x, x ∈ current2.map (fun e => e.name) ↔ x ∈ res) →
      roleReconcile okAll current2 desired idOfName2 =
        .ok ((current2.map (fun e => e.name)).insertionSort (· ≤ ·), [])) := by
  constructor
  · intro current current2 existing desired res calls hrun hsame
    have hmem := reconcile_okAll_mem current existing desired res calls hrun
    apply reconcile_okAll_noop
    · intro e he
      have hin : e.name ∈ res := (hsame e.name).mp (List.mem_map_of_mem _ he)
      rcases (hmem e.name).mp hin with ⟨_, hd⟩ | ⟨hd, _⟩ <;> exact hd
    · intro d hd
      by_cases hres : ∃ e ∈ existing, e.name = d
      · exact Or.inl ((hsame d).mpr ((hmem d).mpr (Or.inr ⟨hd, hres⟩)))
      · exact Or.inr fun e he hne => hres ⟨e, he, hne⟩
  · intro current current2 idOfName idOfName2 desired res calls hrun hsame
    have hmem := roleReconcile_okAll_mem current desired res idOfName calls hrun
    apply roleReconcile_okAll_noop
    · intro e he
      have hin : e.name ∈ res := (hsame e.name).mp (List.mem_map_of_mem _ he)
      rcases (hmem e.name).mp hin with ⟨_, hd⟩ | hd <;> exact hd
    · intro d hd
      exact (hsame d).mpr ((hmem d).mpr (Or.inr hd))

/-- C5 witness: reconciling current `{A}` against desired `{A}` issues no
call, and invoking the reconciliation again on the resulting state again
issues no call. -/
theorem c5_second_update_issues_no_calls_witness :
    reconcile okAll [⟨"1", "A"⟩] ["A"] [⟨"1", "A"⟩] =
      .ok ((([⟨"1", "A"⟩] : List NamedRef).map (fun e => e.name)).insertionSort (· ≤ ·),
           []) :=
  c5_second_update_issues_no_calls.1 [⟨"1", "A"⟩] [⟨"1", "A"⟩] [⟨"1", "A"⟩]
    ["A"] ["A"] [] rfl (fun x => by simp)

/-- C7: an Update whose desired relation set is empty issues exactly one
unassign call for every currently assigned relation, issues zero assign
calls, and returns the empty relation list, for both the listing-matched
reconciliations and the role capability reconciliation. -/
theorem c7_empty_desired_removes_all (current existing : List NamedRef)
    (idOfName : String → String) :
    reconcile okAll current [] existing =
      .ok ([], current.map (fun e => Call.unassign e.id)) ∧
    roleReconcile okAll current [] idOfName =
      .ok ([], current.map (fun e => Call.unassign e.id)) := by
  have hf1 : current.filter (fun e => e.name ∈ ([] : List String)) = [] :=
    List.filter_eq_nil_iff.mpr fun e _ => by simp
  have hf2 : current.filter (fun e => e.name ∉ ([] : List String)) = current :=
    List.filter_eq_self.mpr fun e _ => by simp
  constructor
  · rw [reconcile, removeLoop_okAll_eq, hf1, hf2]
    simp [addLoop]
  · rw [roleReconcile, removeLoop_okAll_eq, hf1, hf2]
    simp [roleAddLoop]

/-- C1 counterexample: `markingDefinitionResource.Update` issues a fresh
`CreateMarkingDefinition` call and writes the newly created marking's id into
state, so when the remote assigns a new id the stored identity changes: here
the state record holding identity `old-id` ends up holding `new-id` after
Update. -/
theorem c1_marking_update_replaces_identity :
    (markingDefinitionUpdate ⟨"old-id", "TLP", "TLP:CUSTOM", 1, "#111111", "t0"⟩
        ⟨"new-id", "TLP", "TLP:CUSTOM", 1, "#111111"⟩ "t1").1.id = "new-id" ∧
    ("new-id" : String) ≠ "old-id" :=
  ⟨rfl, by decide⟩

/-- C1 amended: for the role, group and user resources Update writes the
planned identity back unchanged, so the identity assigned by Create is never
replaced; but for the marking-definition, task-template and vocabulary
resources Update issues a new creation call and stores the id of the newly
created remote entity, which replaces the recorded identity whenever the
remote assigns a different id. -/
theorem c1_identity_assigned_once_amended :
    (∀ (ok : Call → Bool) (plan : GroupState) (remote : RemoteGroup)
        (eR eM : List NamedRef) (now : String) (st : GroupState) (calls : List Call),
      groupUpdate ok plan remote eR eM now = .ok (st, calls) → st.id = plan.id)
  ∧ (∀ (ok : Call → Bool) (plan : RoleState) (remote : RemoteRole)
        (idOfName : String → String) (now : String) (st : RoleState) (calls : List Call),
      roleUpdate ok plan remote idOfName now = .ok (st, calls) → st.id = plan.id)
  ∧ (∀ (ok : Call → Bool) (plan : UserState) (remoteGroups eG : List NamedRef)
        (now : String) (st : UserState) (calls : List Call),
      userUpdate ok plan remoteGroups eG now = .ok (st, calls) → st.id = plan.id)
  ∧ (∀ (plan : MarkingDefinitionState) (created : RemoteMarkingDefinition) (now : String),
      (markingDefinitionUpdate plan created now).1.id = created.id)
  ∧ (∀ (plan : TaskTemplateState) (createdId now : String),
      (taskTemplateUpdate plan createdId now).1.id = createdId)
  ∧ (∀ (plan : VocabularyState) (created : RemoteVocabulary) (now : String),
      (vocabularyUpdate plan created now).1.id = created.id) := by
  refine ⟨?_, ?_, ?_, fun _ _ _ => rfl, fun _ _ _ => rfl, fun _ _ _ => rfl⟩
  · intro ok plan remote eR eM now st calls h
    rw [groupUpdate] at h
    cases h1 : reconcile ok remote.rolesEdges plan.roles eR with
    | error c => rw [h1] at h; exact absurd h (by simp)
    | ok p =>
      obtain ⟨roles, rcalls⟩ := p
      rw [h1] at h
      dsimp only at h
      cases h2 : reconcile ok remote.allowedMarking plan.allowedMarking eM with
      | error c => rw [h2] at h; exact absurd h (by simp)
      | ok q =>
        obtain ⟨marks, mcalls⟩ := q
        rw [h2] at h
        dsimp only at h
        obtain ⟨hst, hcalls⟩ := Prod.mk.injEq .. ▸ Except.ok.inj h
        rw [← hst]
  · intro ok plan remote idOfName now st calls h
    rw [roleUpdate] at h
    cases h1 : roleReconcile ok remote.capabilities plan.capabilities idOfName with
    | error c => rw [h1] at h; exact absurd h (by simp)
    | ok p =>
      obtain ⟨caps, calls1⟩ := p
      rw [h1] at h
      dsimp only at h
      obtain ⟨hst, hcalls⟩ := Prod.mk.injEq .. ▸ Except.ok.inj h
      rw [← hst]
  · intro ok plan remoteGroups eG now st calls h
    rw [userUpdate] at h
    cases h1 : reconcile ok remoteGroups plan.groups eG with
    | error c => rw [h1] at h; exact absurd h (by simp)
    | ok p =>
      obtain ⟨groups, calls1⟩ := p
      rw [h1] at h
      dsimp only at h
      obtain ⟨hst, hcalls⟩ := Prod.mk.injEq .. ▸ Except.ok.inj h
      rw [← hst]

/-- C1 witness: a concrete group Update run keeps the identity `gid`
unchanged. -/
theorem c1_identity_assigned_once_amended_witness :
    (⟨"gid", "g", "d", [], [], 3, false, true, "t1"⟩ : GroupState).id =
      (⟨"gid", "g", "d", [], [], 3, false, true, "t0"⟩ : GroupState).id :=
  c1_identity_assigned_once_amended.1 okAll
    ⟨"gid", "g", "d", [], [], 3, false, true, "t0"⟩
    ⟨"gid", "g", "d", [], [], 3, false, true⟩ [] [] "t1"
    ⟨"gid", "g", "d", [], [], 3, false, true, "t1"⟩ [] rfl

/-- C2 counterexample: `statusTemplateResource.Read` keeps the workflows list
recorded in the previous local state whenever its length equals the remote
usage count: two different prior states produce two different refreshed
states from the very same remote read response, so the relational attribute
written to state is a value carried over from the previously recorded local
state, not one computed from the read. -/
theorem c2_status_read_carries_local_state :
    (statusTemplateRead ⟨"sid", "New", "#ffffff", [⟨"Report", 1⟩], "t0"⟩
        ⟨"sid", "New", "#ffffff", 1⟩).workflows = [⟨"Report", 1⟩] ∧
    ([⟨"Report", 1⟩] : List Workflow) ≠ [] ∧
    (statusTemplateRead ⟨"sid", "New", "#ffffff", [⟨"Case", 2⟩], "t0"⟩
        ⟨"sid", "New", "#ffffff", 1⟩).workflows ≠
      (statusTemplateRead ⟨"sid", "New", "#ffffff", [⟨"Report", 1⟩], "t0"⟩
        ⟨"sid", "New", "#ffffff", 1⟩).workflows :=
  ⟨rfl, by decide, by decide⟩

/-- C2 amended: for the group resource (and the role and user resources,
which share the same shape) Read writes relational attributes equal to the
sorted flattened edge set returned by the remote in that read, independently
of the prior local state; the status-template resource is the exception: its
Read cannot retrieve the remote workflow set and keeps the previously
recorded workflows list verbatim whenever its length equals the remote usage
count, resetting it to empty otherwise. -/
theorem c2_read_reflects_remote_amended :
    (∀ (s s2 : GroupState) (r : RemoteGroup),
      (groupRead s r).roles =
        (r.rolesEdges.map (fun e => e.name)).insertionSort (· ≤ ·) ∧
      (groupRead s r).allowedMarking =
        (r.allowedMarking.map (fun e => e.name)).insertionSort (· ≤ ·) ∧
      (groupRead s r).roles = (groupRead s2 r).roles ∧
      (groupRead s r).allowedMarking = (groupRead s2 r).allowedMarking)
  ∧ (∀ (s : StatusTemplateState) (r : RemoteStatusTemplate),
      (statusTemplateRead s r).workflows =
        if s.workflows.length = r.usages then s.workflows else []) := by
  refine ⟨fun s s2 r => ⟨rfl, rfl, rfl, rfl⟩, fun s r => ?_⟩
  by_cases h : s.workflows.length = r.usages <;> simp [statusTemplateRead, h]

set_option maxHeartbeats 1000000 in
/-- C6: `Configure` rejects the configuration (and never reaches the client
constructor) exactly when, after resolving each setting from explicit
configuration with environment fallback, a setting is unknown at plan time or
resolves to the empty string; and when both the explicit configuration and
the environment variable are set, the explicit value is the one handed to the
client constructor. -/
theorem c6_configure_error_iff :
    (∀ (u t : TFString) (eu et : String),
      (∃ d, providerConfigure u t eu et = .error d) ↔
        (u.isUnknown = true ∨ t.isUnknown = true ∨
          (if !u.isNull then u.valueString else eu) = "" ∨
          (if !t.isNull then t.valueString else et) = ""))
  ∧ (∀ su st eu et : String, su ≠ "" → st ≠ "" →
      providerConfigure (.value su) (.value st) eu et = .ok (su, st)) := by
  constructor
  · intro u t eu et
    cases u <;> cases t <;>
      simp only [providerConfigure, TFString.isUnknown, TFString.isNull,
        TFString.valueString, Bool.not_true, Bool.not_false] <;>
      split_ifs <;> simp_all
  · intro su st eu et hsu hst
    simp [providerConfigure, TFString.isUnknown, TFString.isNull,
      TFString.valueString, hsu, hst]

/-- C6 witness: with both settings explicitly configured and the environment
also set, configuration succeeds with the explicit values. -/
theorem c6_configure_error_iff_witness :
    providerConfigure (.value "http://cti.local") (.value "tok-1")
      "http://env.local" "env-tok" = .ok ("http://cti.local", "tok-1") :=
  c6_configure_error_iff.2 "http://cti.local" "tok-1" "http://env.local" "env-tok"
    (by decide) (by decide)

/-- Sorting a list that is a permutation of an already sorted list returns
that sorted list. -/
theorem insertionSort_eq_of_perm_sorted (l r : List String) (h : l.Perm r)
    (hr : r.Sorted (· ≤ ·)) : l.insertionSort (· ≤ ·) = r :=
  List.eq_of_perm_of_sorted ((List.perm_insertionSort _ l).trans h)
    (List.sorted_insertionSort _ l) hr

/-- Successful group creation writes the created group's scalars and the
sorted lists of the names actually assigned. -/
theorem groupCreate_okAll_inv (plan : GroupState) (created : CreatedGroup)
    (eR eM : List NamedRef) (now : String) (st : GroupState) (calls : List Call)
    (h : groupCreate okAll plan created eR eM now = .ok (st, calls)) :
    ∃ rn mn : List String,
      st = { id := created.id, name := created.name, description := created.description,
             roles := rn.insertionSort (· ≤ ·),
             allowedMarking := mn.insertionSort (· ≤ ·),
             maxConfidenceLevel := created.maxConfidence,
             autoNewMarking := created.autoNewMarking,
             defaultAssignation := created.defaultAssignation,
             lastUpdated := now } := by
  rw [groupCreate] at h
  obtain ⟨rn, rc, hR⟩ := assignLoop_okAll_isOk eR plan.roles
  rw [hR] at h
  dsimp only at h
  obtain ⟨mn, mc, hM⟩ := assignLoop_okAll_isOk eM plan.allowedMarking
  rw [hM] at h
  dsimp only at h
  obtain ⟨hst, hcalls⟩ := Prod.mk.injEq .. ▸ Except.ok.inj h
  exact ⟨rn, mn, hst.symm⟩

/-- On the success path the capability assignment loop of role Create issues
exactly one assign call per resolved id. -/
theorem roleAssignAll_okAll_eq : ∀ ids : List String,
    roleAssignAll okAll ids = .ok (ids.map Call.assign) := by
  intro ids
  induction ids with
  | nil => rfl
  | cons i is ih => simp [roleAssignAll, okAll, ih]

/-- Successful role creation writes the created role's scalars and the sorted
list of all planned capability names. -/
theorem roleCreate_okAll_inv (plan : RoleState) (created : CreatedRole)
    (idsByNames : List String → List String) (now : String) (st : RoleState)
    (calls : List Call)
    (h : roleCreate okAll plan created idsByNames now = .ok (st, calls)) :
    st = { id := created.id, name := created.name,
           capabilities := plan.capabilities.insertionSort (· ≤ ·),
           lastUpdated := now } := by
  rw [roleCreate, roleAssignAll_okAll_eq] at h
  dsimp only at h
  obtain ⟨hst, hcalls⟩ := Prod.mk.injEq .. ▸ Except.ok.inj h
  exact hst.symm

/-- C8: a successful Create followed immediately by a Read of the returned
identity, against a remote backing store not modified in between (the read
returns the scalars the creation returned and edges whose names are exactly
the relations Create wrote to state), yields a record whose scalar fields
and relation lists are identical to those Create wrote to state, the
last-modified timestamp excepted.  First conjunct: the group resource (two
relation kinds); second conjunct: the role resource, whose Create records
every planned capability name, so the stable-store hypothesis says the read
edges carry exactly those names (on a successful Create each planned name was
resolved and assigned). -/
theorem c8_create_then_read_roundtrip :
    (∀ (plan : GroupState) (created : CreatedGroup) (eR eM : List NamedRef)
        (now : String) (st : GroupState) (calls : List Call)
        (prior : GroupState) (remote : RemoteGroup),
      groupCreate okAll plan created eR eM now = .ok (st, calls) →
      remote.id = created.id → remote.name = created.name →
      remote.description = created.description →
      remote.maxConfidence = created.maxConfidence →
      remote.autoNewMarking = created.autoNewMarking →
      remote.defaultAssignation = created.defaultAssignation →
      (remote.rolesEdges.map (fun e => e.name)).Perm st.roles →
      (remote.allowedMarking.map (fun e => e.name)).Perm st.allowedMarking →
      (groupRead prior remote).id = st.id ∧
      (groupRead prior remote).name = st.name ∧
      (groupRead prior remote).description = st.description ∧
      (groupRead prior remote).maxConfidenceLevel = st.maxConfidenceLevel ∧
      (groupRead prior remote).autoNewMarking = st.autoNewMarking ∧
      (groupRead prior remote).defaultAssignation = st.defaultAssignation ∧
      (groupRead prior remote).roles = st.roles ∧
      (groupRead prior remote).allowedMarking = st.allowedMarking)
  ∧ (∀ (plan : RoleState) (created : CreatedRole)
        (idsByNames : List String → List String) (now : String) (st : RoleState)
        (calls : List Call) (prior : RoleState) (remote : RemoteRole),
      roleCreate okAll plan created idsByNames now = .ok (st, calls) →
      remote.id = created.id → remote.name = created.name →
      (remote.capabilities.map (fun e => e.name)).Perm st.capabilities →
      (roleRead prior remote).id = st.id ∧
      (roleRead prior remote).name = st.name ∧
      (roleRead prior remote).capabilities = st.capabilities) := by
  constructor
  · intro plan created eR eM now st calls prior remote hcreate hid hname hdesc hconf
      hanm hda hroles hmarks
    obtain ⟨rn, mn, hst⟩ := groupCreate_okAll_inv plan created eR eM now st calls hcreate
    have hsorted_r : st.roles.Sorted (· ≤ ·) := by
      rw [hst]; exact List.sorted_insertionSort _ _
    have hsorted_m : st.allowedMarking.Sorted (· ≤ ·) := by
      rw [hst]; exact List.sorted_insertionSort _ _
    refine ⟨?_, ?_, ?_, ?_, ?_, ?_, ?_, ?_⟩
    · rw [hst]; exact hid
    · rw [hst]; exact hname
    · rw [hst]; exact hdesc
    · rw [hst]; exact hconf
    · rw [hst]; exact hanm
    · rw [hst]; exact hda
    · exact insertionSort_eq_of_perm_sorted _ _ hroles hsorted_r
    · exact insertionSort_eq_of_perm_sorted _ _ hmarks hsorted_m
  · intro plan created idsByNames now st calls prior remote hcreate hid hname hcaps
    have hst := roleCreate_okAll_inv plan created idsByNames now st calls hcreate
    have hsorted : st.capabilities.Sorted (· ≤ ·) := by
      rw [hst]; exact List.sorted_insertionSort _ _
    refine ⟨?_, ?_, ?_⟩
    · rw [hst]; exact hid
    · rw [hst]; exact hname
    · exact insertionSort_eq_of_perm_sorted _ _ hcaps hsorted

/-- C8 witness: creating a group with one role, and a role with one
capability, then reading each back from the unmodified store reproduces the
created state field for field. -/
theorem c8_create_then_read_roundtrip_witness :
    ((roleRead ⟨"x", "x", [], "tx"⟩ ⟨"rid2", "roleA", [⟨"cap1", "KNOWLEDGE"⟩]⟩).id =
      (⟨"rid2", "roleA", ["KNOWLEDGE"], "t1"⟩ : RoleState).id ∧
    (roleRead ⟨"x", "x", [], "tx"⟩ ⟨"rid2", "roleA", [⟨"cap1", "KNOWLEDGE"⟩]⟩).name =
      (⟨"rid2", "roleA", ["KNOWLEDGE"], "t1"⟩ : RoleState).name ∧
    (roleRead ⟨"x", "x", [], "tx"⟩ ⟨"rid2", "roleA", [⟨"cap1", "KNOWLEDGE"⟩]⟩).capabilities =
      (⟨"rid2", "roleA", ["KNOWLEDGE"], "t1"⟩ : RoleState).capabilities) ∧
    (groupRead ⟨"x", "x", "x", [], [], 0, false, false, "tp"⟩
        ⟨"gid", "g", "d", [⟨"rid", "r"⟩], [], 5, false, true⟩).id =
      (⟨"gid", "g", "d", ["r"], [], 5, false, true, "t1"⟩ : GroupState).id ∧
    (groupRead ⟨"x", "x", "x", [], [], 0, false, false, "tp"⟩
        ⟨"gid", "g", "d", [⟨"rid", "r"⟩], [], 5, false, true⟩).name =
      (⟨"gid", "g", "d", ["r"], [], 5, false, true, "t1"⟩ : GroupState).name ∧
    (groupRead ⟨"x", "x", "x", [], [], 0, false, false, "tp"⟩
        ⟨"gid", "g", "d", [⟨"rid", "r"⟩], [], 5, false, true⟩).description =
      (⟨"gid", "g", "d", ["r"], [], 5, false, true, "t1"⟩ : GroupState).description ∧
    (groupRead ⟨"x", "x", "x", [], [], 0, false, false, "tp"⟩
        ⟨"gid", "g", "d", [⟨"rid", "r"⟩], [], 5, false, true⟩).maxConfidenceLevel =
      (⟨"gid", "g", "d", ["r"], [], 5, false, true, "t1"⟩ : GroupState).maxConfidenceLevel ∧
    (groupRead ⟨"x", "x", "x", [], [], 0, false, false, "tp"⟩
        ⟨"gid", "g", "d", [⟨"rid", "r"⟩], [], 5, false, true⟩).autoNewMarking =
      (⟨"gid", "g", "d", ["r"], [], 5, false, true, "t1"⟩ : GroupState).autoNewMarking ∧
    (groupRead ⟨"x", "x", "x", [], [], 0, false, false, "tp"⟩
        ⟨"gid", "g", "d", [⟨"rid", "r"⟩], [], 5, false, true⟩).defaultAssignation =
      (⟨"gid", "g", "d", ["r"], [], 5, false, true, "t1"⟩ : GroupState).defaultAssignation ∧
    (groupRead ⟨"x", "x", "x", [], [], 0, false, false, "tp"⟩
        ⟨"gid", "g", "d", [⟨"rid", "r"⟩], [], 5, false, true⟩).roles =
      (⟨"gid", "g", "d", ["r"], [], 5, false, true, "t1"⟩ : GroupState).roles ∧
    (groupRead ⟨"x", "x", "x", [], [], 0, false, false, "tp"⟩
        ⟨"gid", "g", "d", [⟨"rid", "r"⟩], [], 5, false, true⟩).allowedMarking =
      (⟨"gid", "g", "d", ["r"], [], 5, false, true, "t1"⟩ : GroupState).allowedMarking :=
  ⟨c8_create_then_read_roundtrip.2
    ⟨"p", "roleA", ["KNOWLEDGE"], "tp"⟩ ⟨"rid2", "roleA"⟩ (fun l => l) "t1"
    ⟨"rid2", "roleA", ["KNOWLEDGE"], "t1"⟩
    [Call.createEntity, Call.assign "KNOWLEDGE"]
    ⟨"x", "x", [], "tx"⟩ ⟨"rid2", "roleA", [⟨"cap1", "KNOWLEDGE"⟩]⟩
    rfl rfl rfl (List.Perm.refl _),
  c8_create_then_read_roundtrip.1
    ⟨"p", "g", "d", ["r"], [], 5, false, true, "tp"⟩
    ⟨"gid", "g", "d", 5, false, true⟩ [⟨"rid", "r"⟩] [] "t1"
    ⟨"gid", "g", "d", ["r"], [], 5, false, true, "t1"⟩
    [Call.createEntity, Call.assign "rid"]
    ⟨"x", "x", "x", [], [], 0, false, false, "tp"⟩
    ⟨"gid", "g", "d", [⟨"rid", "r"⟩], [], 5, false, true⟩
    rfl rfl rfl rfl rfl rfl rfl (List.Perm.refl _) (List.Perm.refl _)⟩

/-- C9 counterexample: the status-template schema does not mark every
user-configured attribute as replace-on-change; `name` (and `color`) are
required attributes without a `RequiresReplace` plan modifier, so a name or
color change is handled by the in-place Update hook (which does nothing
remotely), not by replacement. -/
theorem c9_status_template_not_all_replace :
    statusTemplateSchema.all (fun a => !a.required || a.requiresReplace) = false ∧
    statusTemplateSchema.find? (fun a => a.attr == "name") =
      some ⟨"name", true, false, false⟩ :=
  ⟨rfl, rfl⟩

/-- C9 amended: the case-template and status-template Update hooks issue no
remote call and leave the planned state as the recorded state; every
user-configured case-template attribute is marked replace-on-change, so
case-template configuration changes are handled as replacement; for the
status template only the `workflows` attribute is so marked, and `name` or
`color` changes fall through to the no-op in-place Update, leaving the remote
entity untouched. -/
theorem c9_template_update_noop_amended :
    (∀ plan : CaseTemplateState, caseTemplateUpdate plan = (plan, [])) ∧
    (∀ plan : StatusTemplateState, statusTemplateUpdate plan = (plan, [])) ∧
    caseTemplateSchema.all (fun a => !a.required || a.requiresReplace) = true ∧
    (statusTemplateSchema.find? (fun a => a.attr == "workflows")).map
      (fun a => a.requiresReplace) = some true :=
  ⟨fun _ => rfl, fun _ => rfl, rfl, rfl⟩

/-- C10 counterexample: the existence check of `userResource.Create` uses the
empty name of a zero-valued `system.User{}` as its "not found" sentinel, so
when the planned name is empty and the remote listing contains a user whose
name equals that planned (empty) name, Create still issues a creation call
and adopts the freshly created user, not the listed one. -/
theorem c10_empty_name_matching_user_still_created :
    (⟨"u1", "", "a@x", "tokA"⟩ : RemoteUser).name =
      (⟨"", "", "e@x", "", [], "t0"⟩ : UserState).name ∧
    userCreate okAll ⟨"", "", "e@x", "", [], "t0"⟩ [⟨"u1", "", "a@x", "tokA"⟩]
        ⟨"u2", "", "e@x", "tokB"⟩ [] "t1" =
      .ok (⟨"u2", "", "e@x", "tokB", [], "t1"⟩, [Call.createEntity]) ∧
    ("u2" : String) ≠ "u1" :=
  ⟨rfl, rfl, by decide⟩

/-- C10 amended: if the remote listing contains a user whose non-empty name
equals the planned name, Create issues no remote creation call and adopts the
first such user's identity, email and API token into state, proceeding
directly to group assignment. -/
theorem c10_existing_user_adopted_amended
    (ok : Call → Bool) (plan : UserState) (usersRaw : List RemoteUser)
    (freshUser : RemoteUser) (eG : List NamedRef) (now : String)
    (u : RemoteUser) (st : UserState) (calls : List Call)
    (hfind : usersRaw.find? (fun v => v.name == plan.name) = some u)
    (hne : u.name ≠ "")
    (h : userCreate ok plan usersRaw freshUser eG now = .ok (st, calls)) :
    st.id = u.id ∧ st.userEmail = u.userEmail ∧ st.apiToken = u.apiToken ∧
    Call.createEntity ∉ calls := by
  have hbeq : (u.name == "") = false := by simpa using hne
  rw [userCreate] at h
  simp only [hfind, Option.getD_some, hbeq, Bool.false_and, Bool.false_eq_true,
    if_false] at h
  cases hA : assignLoop ok eG plan.groups with
  | error c => rw [hA] at h; exact absurd h (by simp)
  | ok p =>
    rw [hA] at h
    dsimp only at h
    obtain ⟨hst, hcalls⟩ := Prod.mk.injEq .. ▸ Except.ok.inj h
    refine ⟨by rw [← hst], by rw [← hst], by rw [← hst], ?_⟩
    intro hmem
    rw [← hcalls] at hmem
    simp only [List.nil_append] at hmem
    obtain ⟨i, hi⟩ := assignLoop_calls_assign ok eG plan.groups p.1 p.2 (by rw [hA])
      Call.createEntity hmem
    exact Call.noConfusion hi

/-- C10 witness: a listed user named `alice` with the planned name `alice` is
adopted without any creation call. -/
theorem c10_existing_user_adopted_amended_witness :
    (⟨"u1", "alice", "a@x", "tokA", [], "t1"⟩ : UserState).id = "u1" ∧
    (⟨"u1", "alice", "a@x", "tokA", [], "t1"⟩ : UserState).userEmail = "a@x" ∧
    (⟨"u1", "alice", "a@x", "tokA", [], "t1"⟩ : UserState).apiToken = "tokA" ∧
    Call.createEntity ∉ ([] : List Call) :=
  c10_existing_user_adopted_amended okAll ⟨"", "alice", "e@x", "", [], "t0"⟩
    [⟨"u1", "alice", "a@x", "tokA"⟩] ⟨"u2", "alice", "e@x", "tokB"⟩ [] "t1"
    ⟨"u1", "alice", "a@x", "tokA"⟩ ⟨"u1", "alice", "a@x", "tokA", [], "t1"⟩ []
    rfl (by decide) rfl

end OpenCTI
